import Mathlib

/-!
Shallow embedding of the libsmt.rs SMT-LIB2 backend, translated from
src/backends/smtlib2.rs and src/backends/backend.rs.

Modelling conventions:
* petgraph NodeIndex is a plain Nat (the position of the node in the arena
  list); petgraph edges are stored in insertion order, and
  edges_directed(_, Outgoing) walks the adjacency chain in reverse
  insertion order, which we reproduce with filter-then-reverse.
* Rust HashMap is modelled as an association list with overwrite-on-insert
  semantics (updateAList); HashMap iteration order is unspecified in Rust,
  the list model fixes one admissible order.
* A Rust panic (unwrap on a parse error, HashMap index on a missing key)
  is modelled as the Option value none.
* The solver subprocess is modelled as a script of read outcomes
  (Proc.reads : Nat -> Option String, none = failed read) plus the list of
  writes issued so far; the orchestration code (check_sat / solve) only
  observes read success or failure, which is exactly the abstraction the
  Rust code uses over the SMTProc trait.
* Machine integers: u64 parsing is modelled on Nat with an explicit
  2 ^ 64 overflow bound, as in u64::from_str_radix.
-/

/-- Error kinds, from backend.rs, enum SMTError. -/
inductive SMTError where
  | Timeout
  | Undefined
  | Unsat
  | AssertionError (msg : String)
deriving DecidableEq, Repr

/-- Edge payload of the assertion graph, from smtlib2.rs, enum EdgeData:
each operand edge carries its ordinal position. -/
inductive EdgeData where
  | EdgeOrder (i : Nat)
deriving DecidableEq, Repr

/-- The petgraph Graph<T::Fns, EdgeData>: an arena of nodes (index =
NodeIndex) and a list of (source, target, weight) edges in insertion
order. -/
structure Graph (F : Type) where
  nodes : List F
  edges : List (Nat × Nat × EdgeData)
deriving DecidableEq, Repr

/-- Capability record for a Logic implementation (backend.rs traits Logic
and SMTNode): node rendering and classification, sort rendering, and the
free-variable constructor. -/
structure LogicOps (F S : Type) where
  render : F → String
  is_var : F → Bool
  is_const : F → Bool
  is_fn : F → Bool
  is_bool : F → Bool
  renderSort : S → String
  free_var : String → S → F

/-- Session state, from smtlib2.rs, struct SMTLib2<T: Logic>.  The logic
field stores the rendered logic name (the Rust code only ever uses the
logic value through its Display rendering in set_logic). -/
structure SMTLib2 (F S : Type) where
  logic : Option String
  gr : Graph F
  var_index : Nat
  var_map : List (String × Nat × S)
  idx_map : List (Nat × String)
deriving DecidableEq, Repr

/-- Association-list lookup; m[k] in Rust panics when the key is absent,
callers model that panic as none. -/
def lookupAList {K V : Type} [DecidableEq K] : List (K × V) → K → Option V
  | [], _ => none
  | (k2, v) :: rest, k => if k2 = k then some v else lookupAList rest k

/-- HashMap::insert: overwrite the binding of the key if present,
otherwise append a new binding. -/
def updateAList {K V : Type} [DecidableEq K] : List (K × V) → K → V → List (K × V)
  | [], k, v => [(k, v)]
  | (k2, v2) :: rest, k, v =>
    if k2 = k then (k, v) :: rest else (k2, v2) :: updateAList rest k v

/-- The solver subprocess seen through the SMTProc trait: a script of read
outcomes (none = the read failed), a cursor into it, and the writes issued
so far. -/
structure Proc where
  reads : Nat → Option String
  rpos : Nat
  writes : List String

/-- SMTProc::write: send the bytes and flush. -/
def Proc.write (p : Proc) (s : String) : Proc :=
  { p with writes := p.writes ++ [s] }

/-- One read from the subprocess: the next scripted outcome. -/
def Proc.read (p : Proc) : Option String × Proc :=
  (p.reads p.rpos, { p with rpos := p.rpos + 1 })

/-- Construction of an empty session, SMTLib2::new. -/
def SMTLib2.new {F S : Type} (logic : Option String) : SMTLib2 F S :=
  { logic := logic
    gr := { nodes := [], edges := [] }
    var_index := 0
    var_map := []
    idx_map := [] }

/-- Graph::add_node: append to the arena, return the fresh index. -/
def Graph.add_node {F : Type} (g : Graph F) (f : F) : Graph F × Nat :=
  ({ g with nodes := g.nodes ++ [f] }, g.nodes.length)

/-- Graph::add_edge: append an edge. -/
def Graph.add_edge {F : Type} (g : Graph F) (a b : Nat) (d : EdgeData) : Graph F :=
  { g with edges := g.edges ++ [(a, b, d)] }

/-- Indexing self.gr[ni]; out-of-range indexing would panic in Rust, the
default element stands in for that unreachable case. -/
def Graph.node {F : Type} [Inhabited F] (g : Graph F) (ni : Nat) : F :=
  g.nodes.getD ni default

/-- The (target, ordinal) pairs of the outgoing edges of a node, in the
order edges_directed(ni, Outgoing) yields them (reverse insertion
order). -/
def Graph.childPairs {F : Type} (g : Graph F) (ni : Nat) : List (Nat × Nat) :=
  ((g.edges.filter (fun e => e.1 == ni)).map
    (fun e => match e.2.2 with | EdgeData.EdgeOrder i => (e.2.1, i))).reverse

/-- The incoming edges of a node, edges_directed(ni, Incoming). -/
def Graph.incoming {F : Type} (g : Graph F) (ni : Nat) : List (Nat × Nat × EdgeData) :=
  g.edges.filter (fun e => e.2.1 == ni)

/-- Comparison used by children.sort_by in expand_assertion: ascending
edge ordinal; sort_by is a stable sort, as is insertionSort. -/
def ordLE (x y : Nat × Nat) : Prop := x.2 ≤ y.2

instance : DecidableRel ordLE := fun x y => Nat.decLe x.2 y.2

/-- SMTLib2::expand_assertion, with an explicit recursion-depth fuel (the
Rust recursion terminates because every operand edge points to a node
created strictly earlier; fuel > ni is enough fuel on such graphs, see
expandA_fuel_congr). -/
def expandA {F S : Type} [Inhabited F] (L : LogicOps F S) (g : Graph F) :
    Nat → Nat → String
  | 0, ni => L.render (g.node ni)
  | fuel + 1, ni =>
    let children := List.insertionSort ordLE (g.childPairs ni)
    let a0 := L.render (g.node ni)
    let a1 := if L.is_fn (g.node ni) then "(" ++ a0 else a0
    let a2 := children.foldl (fun acc c => acc ++ " " ++ expandA L g fuel c.1) a1
    if L.is_fn (g.node ni) then a2 ++ ")" else a2

/-- SMTLib2::expand_assertion on the session graph. -/
def SMTLib2.expand_assertion {F S : Type} [Inhabited F] (L : LogicOps F S)
    (st : SMTLib2 F S) (ni : Nat) : String :=
  expandA L st.gr (ni + 1) ni

/-- SMTLib2::generate_asserts: declarations for the registered variables
whose node is_var, then one assert block per root (no incoming edges) that
is a boolean function, concatenated. -/
def SMTLib2.generate_asserts {F S : Type} [Inhabited F] (L : LogicOps F S)
    (st : SMTLib2 F S) : String :=
  let decls := st.var_map.filterMap (fun ent =>
    if L.is_var (st.gr.node ent.2.1) then
      some ("(declare-fun " ++ ent.1 ++ " () " ++ L.renderSort ent.2.2 ++ ")\n")
    else none)
  let assertions := (List.range st.gr.nodes.length).filterMap (fun idx =>
    if (st.gr.incoming idx).isEmpty then
      if L.is_fn (st.gr.node idx) && L.is_bool (st.gr.node idx) then
        some ("(assert " ++ st.expand_assertion L idx ++ ")\n")
      else none
    else none)
  (decls ++ assertions).foldl (fun acc w => acc ++ w) ""

/-- SMTLib2::new_const. -/
def SMTLib2.new_const {F S : Type} (st : SMTLib2 F S) (cval : F) : SMTLib2 F S × Nat :=
  let p := st.gr.add_node cval
  ({ st with gr := p.1 }, p.2)

/-- SMTBackend::new_var for SMTLib2.  Note: the Rust source uses
unwrap_or, whose argument is evaluated eagerly, so the anonymous-name
counter is incremented on every call, named or not; the generated name is
used only when no name was supplied. -/
def SMTLib2.new_var {F S : Type} (L : LogicOps F S) (st : SMTLib2 F S)
    (var_name : Option String) (ty : S) : SMTLib2 F S × Nat :=
  let vi := st.var_index + 1
  let name := match var_name with
    | some s => s
    | none => "X_" ++ Nat.repr vi
  let p := st.gr.add_node (L.free_var name ty)
  ({ st with
      gr := p.1
      var_index := vi
      var_map := updateAList st.var_map name (p.2, ty)
      idx_map := updateAList st.idx_map p.2 name }, p.2)

/-- SMTBackend::assert for SMTLib2: a fresh function node with one
ordinal-tagged edge to each operand. -/
def SMTLib2.assert {F S : Type} (st : SMTLib2 F S) (fnval : F) (ops : List Nat) :
    SMTLib2 F S × Nat :=
  let p := st.gr.add_node fnval
  let gr2 := ops.enum.foldl
    (fun g pr => g.add_edge p.2 pr.2 (EdgeData.EdgeOrder pr.1)) p.1
  ({ st with gr := gr2 }, p.2)

/-- SMTBackend::set_logic for SMTLib2. -/
def SMTLib2.set_logic {F S : Type} (st : SMTLib2 F S) (p : Proc) : Proc :=
  match st.logic with
  | none => p
  | some l => p.write ("(set-logic " ++ l ++ ")\n")

/-- SMTBackend::check_sat for SMTLib2 (the unbounded variant): write the
regenerated assertion text and (check-sat), read once; the exact payload
"sat\n" yields true, any other payload yields false, a failed read yields
Undefined.  The session state is threaded through to mirror &mut self. -/
def SMTLib2.check_sat {F S : Type} [Inhabited F] (L : LogicOps F S)
    (st : SMTLib2 F S) (p : Proc) : SMTLib2 F S × Proc × Except SMTError Bool :=
  let p1 := p.write (st.generate_asserts L)
  let p2 := p1.write "(check-sat)\n"
  let r := p2.read
  match r.1 with
  | some s => (st, r.2, Except.ok (if s = "sat\n" then true else false))
  | none => (st, r.2, Except.error SMTError.Undefined)

/-- SMTLib2::check_sat_with_timeout: identical to check_sat except that
the read is bounded by the timeout and a failed read yields Timeout. -/
def SMTLib2.check_sat_with_timeout {F S : Type} [Inhabited F] (L : LogicOps F S)
    (st : SMTLib2 F S) (p : Proc) (timeout : Nat) :
    SMTLib2 F S × Proc × Except SMTError Bool :=
  let p1 := p.write (st.generate_asserts L)
  let p2 := p1.write "(check-sat)\n"
  let r := p2.read
  match r.1 with
  | some s => (st, r.2, Except.ok (if s = "sat\n" then true else false))
  | none => (st, r.2, Except.error SMTError.Timeout)

/-- char::to_digit(radix): decimal digits, then lowercase and uppercase
letters, accepted only when the digit value is below the radix. -/
def charToDigit (c : Char) (radix : Nat) : Option Nat :=
  let v : Option Nat :=
    if '0' ≤ c ∧ c ≤ '9' then some (c.toNat - 48)
    else if 'a' ≤ c ∧ c ≤ 'z' then some (c.toNat - 87)
    else if 'A' ≤ c ∧ c ≤ 'Z' then some (c.toNat - 55)
    else none
  match v with
  | some d => if d < radix then some d else none
  | none => none

/-- Digit accumulation of u64::from_str_radix: each step fails on an
invalid digit or when the checked multiply-add would exceed u64::MAX. -/
def fromStrRadixCore (radix : Nat) (cs : List Char) : Option Nat :=
  cs.foldl (fun acc c =>
    match acc, charToDigit c radix with
    | some a, some d =>
      if a * radix + d < 18446744073709551616 then some (a * radix + d) else none
    | _, _ => none) (some 0)

/-- u64::from_str_radix (also u64's FromStr when radix = 10): an optional
leading plus sign, then a nonempty run of digits; none models Err. -/
def from_str_radix (radix : Nat) (s : String) : Option Nat :=
  match s.data with
  | [] => none
  | c :: rest =>
    let digits := if c = '+' then rest else c :: rest
    if digits.isEmpty then none else fromStrRadixCore radix digits

/-- The value-token decoding in parse_solver_output / solve: a "#x"
prefix (with more than two bytes in the token) selects radix 16, a "#b"
prefix selects radix 2, anything else is parsed as decimal.  Rust slices
bytes; on the ASCII tokens the regex produces, bytes and chars agree, so
the slicing is modelled on the character list. -/
def decodeValue (val_str : String) : Option Nat :=
  if 2 < val_str.data.length ∧ val_str.data.take 2 = ['#', 'x'] then
    from_str_radix 16 (String.mk (val_str.data.drop 2))
  else if 2 < val_str.data.length ∧ val_str.data.take 2 = ['#', 'b'] then
    from_str_radix 2 (String.mk (val_str.data.drop 2))
  else from_str_radix 10 val_str

/-- ASCII whitespace class for the regex escape \s. -/
def isWsChar (c : Char) : Bool :=
  c = ' ' || c = '\t' || c = '\n' || c = '\r' || c = '\x0b' || c = '\x0c'

/-- Character class [0-9a-zA-Z_] of the var capture group. -/
def isWordChar (c : Char) : Bool :=
  c.isDigit || c.isAlpha || c = '_'

/-- Character class [ _a-zA-Z0-9] of the sort part. -/
def isSortChar (c : Char) : Bool :=
  c = ' ' || c = '_' || c.isAlpha || c.isDigit

/-- Character class [0-9a-f] of the #x alternative. -/
def isHexLower (c : Char) : Bool :=
  c.isDigit || ('a' ≤ c && c ≤ 'f')

/-- Character class [01] of the #b alternative. -/
def isBinDigit (c : Char) : Bool :=
  c = '0' || c = '1'

/-- Match a literal character sequence, returning the remainder. -/
def dropLit : List Char → List Char → Option (List Char)
  | [], cs => some cs
  | _ :: _, [] => none
  | l :: ls, c :: cs => if c = l then dropLit ls cs else none

/-- Greedy nonempty character-class match (a regex class followed by +),
returning the matched run and the remainder. -/
def takeWhile1 (p : Char → Bool) (cs : List Char) : Option (List Char × List Char) :=
  let t := cs.takeWhile p
  if t.isEmpty then none else some (t, cs.dropWhile p)

/-- The val capture group ([0-9]+|#x[0-9a-f]+|#b[01]+), alternatives in
leftmost-first order. -/
def matchValTok (cs : List Char) : Option (List Char × List Char) :=
  match takeWhile1 Char.isDigit cs with
  | some r => some r
  | none =>
    match cs with
    | '#' :: 'x' :: rest =>
      (match takeWhile1 isHexLower rest with
       | some (t, rest2) => some ('#' :: 'x' :: t, rest2)
       | none => none)
    | '#' :: 'b' :: rest =>
      (match takeWhile1 isBinDigit rest with
       | some (t, rest2) => some ('#' :: 'b' :: t, rest2)
       | none => none)
    | _ => none

/-- One attempted match, anchored at the head of cs, of the model regex
\s+\(define-fun (var)[0-9a-zA-Z_]+ \(\) [(]?[ _a-zA-Z0-9]+[)]?\n\s+(val).
Every quantified piece is followed by a character it can never consume,
so the greedy, backtracking-free reading below is exact. -/
def tryMatchBlock (cs : List Char) : Option (String × String × List Char) :=
  match takeWhile1 isWsChar cs with
  | none => none
  | some (_, cs1) =>
    match dropLit "(define-fun ".data cs1 with
    | none => none
    | some cs2 =>
      match takeWhile1 isWordChar cs2 with
      | none => none
      | some (var, cs3) =>
        match dropLit " () ".data cs3 with
        | none => none
        | some cs4 =>
          let cs5 := match cs4 with | '(' :: r => r | _ => cs4
          match takeWhile1 isSortChar cs5 with
          | none => none
          | some (_, cs6) =>
            let cs7 := match cs6 with | ')' :: r => r | _ => cs6
            match cs7 with
            | '\n' :: cs8 =>
              (match takeWhile1 isWsChar cs8 with
               | none => none
               | some (_, cs9) =>
                 match matchValTok cs9 with
                 | none => none
                 | some (valTok, rest) => some (String.mk var, String.mk valTok, rest))
            | _ => none

/-- Regex::captures_iter: repeatedly find the leftmost match at or after
the end of the previous one.  A successful match always consumes at least
one character (the leading \s+), so fuel equal to the string length is
exact. -/
def scanCaptures : Nat → List Char → List (String × String)
  | 0, _ => []
  | _ + 1, [] => []
  | fuel + 1, c :: cs =>
    match tryMatchBlock (c :: cs) with
    | some (v, x, rest) => (v, x) :: scanCaptures fuel rest
    | none => scanCaptures fuel cs

/-- All (var, val) capture pairs of the model regex over the text. -/
def findCaptures (s : String) : List (String × String) :=
  scanCaptures s.data.length s.data

/-- The loop body of parse_solver_output over the captures: decode the
value token (unwrap: a malformed or overflowing numeral panics, none),
then index var_map with the name (a missing key panics, none), then
insert into the result map. -/
def parseFold {S : Type} (vm : List (String × Nat × S)) :
    List (String × String) → List (Nat × Nat) → Option (List (Nat × Nat))
  | [], acc => some acc
  | (name, valTok) :: rest, acc =>
    match decodeValue valTok with
    | none => none
    | some v =>
      match lookupAList vm name with
      | none => none
      | some ent => parseFold vm rest (updateAList acc ent.1 v)

/-- SMTLib2::parse_solver_output (&mut self is threaded but never
mutated); none models a panic inside the loop. -/
def SMTLib2.parse_solver_output {F S : Type} (st : SMTLib2 F S) (output : String) :
    SMTLib2 F S × Option (List (Nat × Nat)) :=
  (st, parseFold st.var_map (findCaptures output) [])

/-- SMTBackend::solve for SMTLib2 (unbounded): check_sat, then on a true
verdict write (get-model), read twice discarding the first payload, and
run the model regex loop (inlined in the Rust source, identical to
parse_solver_output) on the second payload. -/
def SMTLib2.solve {F S : Type} [Inhabited F] (L : LogicOps F S)
    (st : SMTLib2 F S) (p : Proc) :
    SMTLib2 F S × Proc × Option (Except SMTError (List (Nat × Nat))) :=
  let r1 := st.check_sat L p
  match r1.2.2 with
  | Except.error _ => (r1.1, r1.2.1, some (Except.error SMTError.Undefined))
  | Except.ok false => (r1.1, r1.2.1, some (Except.error SMTError.Unsat))
  | Except.ok true =>
    let p2 := r1.2.1.write "(get-model)\n"
    let d := p2.read
    let r2 := d.2.read
    match r2.1 with
    | some s =>
      let pr := r1.1.parse_solver_output s
      (match pr.2 with
       | some m => (pr.1, r2.2, some (Except.ok m))
       | none => (pr.1, r2.2, none))
    | none => (r1.1, r2.2, some (Except.error SMTError.Undefined))

/-- SMTLib2::solve_with_timeout: same sequence as solve, except that the
two model reads are bounded by the timeout and a failed model read yields
Timeout.  Note the Rust source calls the unbounded check_sat here. -/
def SMTLib2.solve_with_timeout {F S : Type} [Inhabited F] (L : LogicOps F S)
    (st : SMTLib2 F S) (p : Proc) (timeout : Nat) :
    SMTLib2 F S × Proc × Option (Except SMTError (List (Nat × Nat))) :=
  let r1 := st.check_sat L p
  match r1.2.2 with
  | Except.error _ => (r1.1, r1.2.1, some (Except.error SMTError.Undefined))
  | Except.ok false => (r1.1, r1.2.1, some (Except.error SMTError.Unsat))
  | Except.ok true =>
    let p2 := r1.2.1.write "(get-model)\n"
    let d := p2.read
    let r2 := d.2.read
    match r2.1 with
    | some s =>
      let pr := r1.1.parse_solver_output s
      (match pr.2 with
       | some m => (pr.1, r2.2, some (Except.ok m))
       | none => (pr.1, r2.2, none))
    | none => (r1.1, r2.2, some (Except.error SMTError.Timeout))

/-- Possible outcomes of SMTProc::read: a successful payload, a typed
error, or blocking forever (recv on a channel whose sender never
sends). -/
inductive ReadOutcome where
  | ok (s : String)
  | err (e : SMTError)
  | hang
deriving DecidableEq, Repr

/-- The default SMTProc::read.  The Rust body runs on a single thread, in
program order: (1) create the channel; (2) if stdout is present, perform
the blocking byte read to completion (taking the full response latency of
the subprocess, however long), then send one completion signal; (3) only
then wait on the channel, with recv_timeout when a timeout was supplied
and recv otherwise.  Because step (2) finishes before step (3) starts,
whenever stdout is present the signal is already buffered in the channel
and both waits return immediately with the data; the bounded wait can
expire only when stdout was absent and no signal was ever sent, and the
unbounded wait then blocks forever.  The latency argument models how long
the subprocess takes to produce its output; the sequential code ignores
it except for elapsed wall-clock time. -/
def smtproc_read (stdout : Option (Nat × String)) (timeout : Option Nat) : ReadOutcome :=
  match stdout with
  | some (_latency, data) =>
    (match timeout with
     | some _t => ReadOutcome.ok data
     | none => ReadOutcome.ok data)
  | none =>
    (match timeout with
     | some _t => ReadOutcome.err SMTError.Timeout
     | none => ReadOutcome.hang)

/-- A small concrete theory used to instantiate the generic backend in
witnesses: variables, numeric constants, and named operators with an
explicit boolean-ness flag. -/
inductive TSort where
  | tInt
  | tBool
  | tBV (w : Nat)
deriving DecidableEq, Repr

/-- SMT-LIB2 rendering of the toy sorts. -/
def TSort.render : TSort → String
  | TSort.tInt => "Int"
  | TSort.tBool => "Bool"
  | TSort.tBV w => "(_ BitVec " ++ Nat.repr w ++ ")"

/-- Toy node values. -/
inductive TFn where
  | fvar (name : String) (s : TSort)
  | fconst (v : Nat)
  | ffn (op : String) (isb : Bool)
deriving DecidableEq, Repr

instance : Inhabited TFn := ⟨TFn.fconst 0⟩

/-- The LogicOps instance of the toy theory; is_fn agrees with the
SMTNode default (neither var nor const). -/
def toyL : LogicOps TFn TSort :=
  { render := fun f => match f with
      | TFn.fvar n _ => n
      | TFn.fconst v => Nat.repr v
      | TFn.ffn op _ => op
    is_var := fun f => match f with | TFn.fvar _ _ => true | _ => false
    is_const := fun f => match f with | TFn.fconst _ => true | _ => false
    is_fn := fun f => match f with | TFn.ffn _ _ => true | _ => false
    is_bool := fun f => match f with
      | TFn.ffn _ b => b
      | TFn.fvar _ s => s = TSort.tBool
      | TFn.fconst _ => false
    renderSort := TSort.render
    free_var := fun n s => TFn.fvar n s }

/-! ## Helper lemmas -/

/-- Unfolded characterization of check_sat: the two writes, one consumed
read, and the verdict as a function of the read outcome. -/
lemma check_sat_eq {F S : Type} [Inhabited F] (L : LogicOps F S)
    (st : SMTLib2 F S) (p : Proc) :
    st.check_sat L p =
      (st,
       { p with
          rpos := p.rpos + 1
          writes := p.writes ++ [st.generate_asserts L, "(check-sat)\n"] },
       match p.reads p.rpos with
       | some s => Except.ok (if s = "sat\n" then true else false)
       | none => Except.error SMTError.Undefined) := by
  cases h : p.reads p.rpos <;>
    simp [SMTLib2.check_sat, Proc.write, Proc.read, h]

/-- Unfolded characterization of check_sat_with_timeout. -/
lemma check_sat_with_timeout_eq {F S : Type} [Inhabited F] (L : LogicOps F S)
    (st : SMTLib2 F S) (p : Proc) (t : Nat) :
    st.check_sat_with_timeout L p t =
      (st,
       { p with
          rpos := p.rpos + 1
          writes := p.writes ++ [st.generate_asserts L, "(check-sat)\n"] },
       match p.reads p.rpos with
       | some s => Except.ok (if s = "sat\n" then true else false)
       | none => Except.error SMTError.Timeout) := by
  cases h : p.reads p.rpos <;>
    simp [SMTLib2.check_sat_with_timeout, Proc.write, Proc.read, h]


/-- Folding string concatenation from a seed prepends the seed to the
join of the list. -/
lemma foldl_append_eq_join : ∀ (l : List String) (a : String),
    List.foldl (fun x y => x ++ y) a l = a ++ String.join l := by
  intro l
  induction l with
  | nil => intro a; simp [String.join]
  | cons s tl ih =>
    intro a
    show List.foldl (fun x y => x ++ y) (a ++ s) tl = a ++ String.join (s :: tl)
    rw [ih (a ++ s)]
    have hj : String.join (s :: tl) = s ++ String.join tl := by
      show List.foldl (fun x y => x ++ y) ("" ++ s) tl = _
      rw [ih ("" ++ s)]
      simp
    rw [hj, ← String.append_assoc]

/-- Fixed session and process values used by witnesses. -/
def wSt : SMTLib2 TFn TSort := SMTLib2.new none

/-- A process whose every read yields "sat\n". -/
def procSat : Proc := ⟨fun _ => some "sat\n", 0, []⟩

/-- A process whose every read yields "unsat\n". -/
def procUnsat : Proc := ⟨fun _ => some "unsat\n", 0, []⟩

/-- A process whose every read fails. -/
def procFail : Proc := ⟨fun _ => none, 0, []⟩

/-! ## Claims -/

/-- C2: the unbounded check_sat returns Ok(true) exactly when the string
read from the solver is the byte sequence "sat\n"; every other
successfully read string yields Ok(false); a failed read yields
Err(Undefined) on the unbounded path and Err(Timeout) on the
timeout-bounded path. -/
theorem claim_C2_check_sat_verdict {F S : Type} [Inhabited F] (L : LogicOps F S)
    (st : SMTLib2 F S) (p : Proc) (s : String) (t : Nat) :
    (p.reads p.rpos = some s →
      ((st.check_sat L p).2.2 = Except.ok (if s = "sat\n" then true else false) ∧
       ((st.check_sat L p).2.2 = Except.ok true ↔ s = "sat\n") ∧
       (st.check_sat_with_timeout L p t).2.2 =
         Except.ok (if s = "sat\n" then true else false))) ∧
    (p.reads p.rpos = none →
      ((st.check_sat L p).2.2 = Except.error SMTError.Undefined ∧
       (st.check_sat_with_timeout L p t).2.2 = Except.error SMTError.Timeout)) := by
  constructor
  · intro h
    rw [check_sat_eq, check_sat_with_timeout_eq]
    refine ⟨by simp [h], ?_, by simp [h]⟩
    by_cases hs : s = "sat\n" <;> simp [h, hs]
  · intro h
    rw [check_sat_eq, check_sat_with_timeout_eq]
    exact ⟨by simp [h], by simp [h]⟩

/-- Witness for C2 at concrete inputs: an "unsat\n" payload yields
Ok(false), a failed read yields Undefined / Timeout. -/
theorem claim_C2_check_sat_verdict_witness :
    ((wSt.check_sat toyL procUnsat).2.2 = Except.ok false ∧
     (wSt.check_sat toyL procFail).2.2 = Except.error SMTError.Undefined ∧
     (wSt.check_sat_with_timeout toyL procFail 5).2.2 = Except.error SMTError.Timeout) := by
  have h1 := (claim_C2_check_sat_verdict toyL wSt procUnsat "unsat\n" 5).1 rfl
  have h2 := (claim_C2_check_sat_verdict toyL wSt procFail "" 5).2 rfl
  refine ⟨?_, h2.1, h2.2⟩
  have := h1.1
  simpa using this

/-- C10: check_sat, check_sat_with_timeout, solve, and solve_with_timeout
return the session state unchanged: graph, both registry directions, the
anonymous-name counter, and the configured logic are those of the input
state. -/
theorem claim_C10_frame {F S : Type} [Inhabited F] (L : LogicOps F S)
    (st : SMTLib2 F S) (p : Proc) (t : Nat) :
    (st.check_sat L p).1 = st ∧
    (st.check_sat_with_timeout L p t).1 = st ∧
    (st.solve L p).1 = st ∧
    (st.solve_with_timeout L p t).1 = st := by
  refine ⟨by rw [check_sat_eq], by rw [check_sat_with_timeout_eq], ?_, ?_⟩ <;>
  · first
    | (unfold SMTLib2.solve; skip)
    | (unfold SMTLib2.solve_with_timeout; skip)
    rw [check_sat_eq]
    cases h : p.reads p.rpos with
    | none => simp
    | some s =>
      by_cases hs : s = "sat\n"
      · simp only [hs, if_pos rfl]
        cases h2 : p.reads (p.rpos + 1 + 1) with
        | none => simp [Proc.write, Proc.read, h2]
        | some s2 =>
          simp only [Proc.write, Proc.read, h2, SMTLib2.parse_solver_output]
          cases h3 : parseFold st.var_map (findCaptures s2) [] <;> simp [h3]
      · simp [hs]

/-- C4 (refuting evaluation): the default SMTProc::read performs the
blocking byte read and the channel send sequentially on the caller's own
thread before it ever waits on the channel, so a bounded read over a live
pipe returns the data even when the timeout (10) is far shorter than the
subprocess response latency (1000); it does not return Err(Timeout) as
the claim states.  Timeout is reachable only when stdout is absent. -/
theorem claim_C4_timeout_never_fires_on_live_pipe :
    smtproc_read (some (1000, "sat\n")) (some 10) = ReadOutcome.ok "sat\n" ∧
    smtproc_read (some (1000, "sat\n")) (some 10) ≠ ReadOutcome.err SMTError.Timeout ∧
    (10 : Nat) < 1000 ∧
    smtproc_read none (some 10) = ReadOutcome.err SMTError.Timeout := by
  refine ⟨rfl, by decide, by decide, rfl⟩

/-- C6: on the same session state and the same scripted solver responses,
solve and solve_with_timeout issue the same writes and return the same
state, process and result whenever none of the (at most three) reads
fails. -/
theorem claim_C6_solve_variants_agree {F S : Type} [Inhabited F] (L : LogicOps F S)
    (st : SMTLib2 F S) (p : Proc) (t : Nat)
    (h0 : (p.reads p.rpos).isSome)
    (h2 : (p.reads (p.rpos + 1 + 1)).isSome) :
    st.solve L p = st.solve_with_timeout L p t := by
  unfold SMTLib2.solve SMTLib2.solve_with_timeout
  rw [check_sat_eq]
  rcases hr : p.reads p.rpos with _ | s
  · simp [hr]
  · by_cases hs : s = "sat\n"
    · simp only [hs, if_pos rfl]
      rcases hr2 : p.reads (p.rpos + 1 + 1) with _ | s2
      · rw [hr2] at h2; simp at h2
      · simp [Proc.write, Proc.read, hr2]
    · simp [hs]

/-- Witness for C6: a process answering "sat\n" to every read; both
variants agree on it. -/
theorem claim_C6_solve_variants_agree_witness :
    ((procSat.reads procSat.rpos).isSome ∧
     (procSat.reads (procSat.rpos + 1 + 1)).isSome) ∧
    wSt.solve toyL procSat = wSt.solve_with_timeout toyL procSat 7 :=
  ⟨⟨rfl, rfl⟩, claim_C6_solve_variants_agree toyL wSt procSat 7 rfl rfl⟩

/-- String.join distributes over cons. -/
lemma join_cons (s : String) (tl : List String) :
    String.join (s :: tl) = s ++ String.join tl := by
  show List.foldl (fun x y => x ++ y) ("" ++ s) tl = _
  rw [foldl_append_eq_join]
  simp

/-- A filterMap whose function is an if-then-some-else-none is the map of
the filter. -/
lemma filterMap_if_eq {α β : Type} (p : α → Bool) (f : α → β) (l : List α) :
    l.filterMap (fun a => if p a then some (f a) else none) = (l.filter p).map f := by
  induction l with
  | nil => rfl
  | cons a tl ih =>
    by_cases h : p a <;> simp [List.filterMap_cons, List.filter_cons, h, ih]

/-- The declaration lines of generate_asserts. -/
def declLines {F S : Type} [Inhabited F] (L : LogicOps F S) (st : SMTLib2 F S) :
    List String :=
  (st.var_map.filter (fun ent => L.is_var (st.gr.node ent.2.1))).map
    (fun ent => "(declare-fun " ++ ent.1 ++ " () " ++ L.renderSort ent.2.2 ++ ")\n")

/-- The assert blocks of generate_asserts: one per root node (no incoming
edges) that is a boolean function. -/
def assertLines {F S : Type} [Inhabited F] (L : LogicOps F S) (st : SMTLib2 F S) :
    List String :=
  ((List.range st.gr.nodes.length).filter
      (fun idx => (st.gr.incoming idx).isEmpty &&
        (L.is_fn (st.gr.node idx) && L.is_bool (st.gr.node idx)))).map
    (fun idx => "(assert " ++ st.expand_assertion L idx ++ ")\n")

/-- Characterization of generate_asserts as the join of exactly one
declaration line per is_var registry entry and exactly one assert block
per boolean-function root. -/
lemma generate_asserts_eq {F S : Type} [Inhabited F] (L : LogicOps F S)
    (st : SMTLib2 F S) :
    st.generate_asserts L = String.join (declLines L st ++ assertLines L st) := by
  unfold SMTLib2.generate_asserts
  rw [foldl_append_eq_join]
  have h1 : st.var_map.filterMap (fun ent =>
      if L.is_var (st.gr.node ent.2.1) then
        some ("(declare-fun " ++ ent.1 ++ " () " ++ L.renderSort ent.2.2 ++ ")\n")
      else none) = declLines L st :=
    filterMap_if_eq _ _ _
  have h2 : (List.range st.gr.nodes.length).filterMap (fun idx =>
      if (st.gr.incoming idx).isEmpty then
        if L.is_fn (st.gr.node idx) && L.is_bool (st.gr.node idx) then
          some ("(assert " ++ st.expand_assertion L idx ++ ")\n")
        else none
      else none) = assertLines L st := by
    have hfn : (fun idx =>
        if (st.gr.incoming idx).isEmpty then
          if L.is_fn (st.gr.node idx) && L.is_bool (st.gr.node idx) then
            some ("(assert " ++ st.expand_assertion L idx ++ ")\n")
          else none
        else none) = (fun idx =>
        if ((st.gr.incoming idx).isEmpty &&
            (L.is_fn (st.gr.node idx) && L.is_bool (st.gr.node idx))) then
          some ("(assert " ++ st.expand_assertion L idx ++ ")\n")
        else none) := by
      funext idx
      by_cases ha : (st.gr.incoming idx).isEmpty <;>
        by_cases hb : L.is_fn (st.gr.node idx) && L.is_bool (st.gr.node idx) <;>
          simp [ha, hb]
    rw [hfn]
    exact filterMap_if_eq _ _ _
  rw [h1, h2]
  simp

/-- Every line generate_asserts joins starts with "(d" or "(a". -/
lemma mem_lines_take_two {F S : Type} [Inhabited F] (L : LogicOps F S)
    (st : SMTLib2 F S) (s : String)
    (hs : s ∈ declLines L st ++ assertLines L st) :
    s.data.take 2 = ['(', 'd'] ∨ s.data.take 2 = ['(', 'a'] := by
  rcases List.mem_append.mp hs with h | h
  · left
    rcases List.mem_map.mp h with ⟨ent, _, rfl⟩
    show ((("(declare-fun " ++ ent.1 ++ " () " ++ L.renderSort ent.2.2
        ++ ")\n")).data).take 2 = _
    simp only [String.data_append, List.append_assoc]
    rfl
  · right
    rcases List.mem_map.mp h with ⟨idx, _, rfl⟩
    show ((("(assert " ++ st.expand_assertion L idx ++ ")\n")).data).take 2 = _
    simp only [String.data_append, List.append_assoc]
    rfl

/-- generate_asserts can never produce the get-model command. -/
lemma generate_asserts_ne_get_model {F S : Type} [Inhabited F] (L : LogicOps F S)
    (st : SMTLib2 F S) : st.generate_asserts L ≠ "(get-model)\n" := by
  rw [generate_asserts_eq]
  cases h : declLines L st ++ assertLines L st with
  | nil =>
    intro hc
    exact absurd (congrArg String.data hc) (by decide)
  | cons s tl =>
    rw [join_cons]
    intro hc
    have hd := congrArg String.data hc
    rw [String.data_append] at hd
    have htk := congrArg (List.take 2) hd
    have hmem : s ∈ declLines L st ++ assertLines L st := by
      rw [h]; exact List.mem_cons_self s tl
    have h2 := mem_lines_take_two L st s hmem
    have hlen : 2 ≤ s.data.length := by
      rcases h2 with h2 | h2 <;>
        · rcases hd2 : s.data with _ | ⟨a, tl2⟩
          · rw [hd2] at h2; simp at h2
          · rcases tl2 with _ | ⟨b, tl3⟩
            · rw [hd2] at h2; simp at h2
            · simp only [List.length_cons]; omega
    rw [List.take_append_of_le_length hlen] at htk
    rcases h2 with h2 | h2 <;> rw [h2] at htk <;> exact absurd htk (by decide)

/-- C3: when the check_sat step inside solve reads a non-"sat\n" payload,
both solve variants return Err(Unsat); when the read fails they return
Err(Undefined); in both cases the writes issued are exactly the assertion
text and (check-sat), and "(get-model)" is not among them. -/
theorem claim_C3_unsat_no_get_model {F S : Type} [Inhabited F] (L : LogicOps F S)
    (st : SMTLib2 F S) (p : Proc) (s : String) (t : Nat) :
    (p.reads p.rpos = some s → s ≠ "sat\n" →
      ((st.solve L p).2.2 = some (Except.error SMTError.Unsat) ∧
       (st.solve_with_timeout L p t).2.2 = some (Except.error SMTError.Unsat) ∧
       (st.solve L p).2.1.writes = p.writes ++ [st.generate_asserts L, "(check-sat)\n"] ∧
       (st.solve_with_timeout L p t).2.1.writes =
         p.writes ++ [st.generate_asserts L, "(check-sat)\n"] ∧
       "(get-model)\n" ∉ [st.generate_asserts L, "(check-sat)\n"])) ∧
    (p.reads p.rpos = none →
      ((st.solve L p).2.2 = some (Except.error SMTError.Undefined) ∧
       (st.solve_with_timeout L p t).2.2 = some (Except.error SMTError.Undefined) ∧
       (st.solve L p).2.1.writes = p.writes ++ [st.generate_asserts L, "(check-sat)\n"] ∧
       (st.solve_with_timeout L p t).2.1.writes =
         p.writes ++ [st.generate_asserts L, "(check-sat)\n"] ∧
       "(get-model)\n" ∉ [st.generate_asserts L, "(check-sat)\n"])) := by
  have hnm : "(get-model)\n" ∉ [st.generate_asserts L, "(check-sat)\n"] := by
    intro hmem
    rcases List.mem_cons.mp hmem with hmem | hmem
    · exact generate_asserts_ne_get_model L st hmem.symm
    · rcases List.mem_cons.mp hmem with hmem | hmem
      · exact absurd hmem (by decide)
      · simp at hmem
  constructor
  · intro h hs
    unfold SMTLib2.solve SMTLib2.solve_with_timeout
    rw [check_sat_eq, h]
    simp only [if_neg hs]
    exact ⟨trivial, trivial, trivial, trivial, hnm⟩
  · intro h
    unfold SMTLib2.solve SMTLib2.solve_with_timeout
    rw [check_sat_eq, h]
    exact ⟨rfl, rfl, rfl, rfl, hnm⟩

/-- Witness for C3: an "unsat\n" answer yields Unsat, a failed read
yields Undefined, and no get-model write occurs in either case. -/
theorem claim_C3_unsat_no_get_model_witness :
    ((wSt.solve toyL procUnsat).2.2 = some (Except.error SMTError.Unsat) ∧
     (wSt.solve toyL procUnsat).2.1.writes =
       procUnsat.writes ++ [wSt.generate_asserts toyL, "(check-sat)\n"] ∧
     "(get-model)\n" ∉ [wSt.generate_asserts toyL, "(check-sat)\n"]) ∧
    ((wSt.solve toyL procFail).2.2 = some (Except.error SMTError.Undefined)) := by
  have h1 := (claim_C3_unsat_no_get_model toyL wSt procUnsat "unsat\n" 3).1 rfl (by decide)
  have h2 := (claim_C3_unsat_no_get_model toyL wSt procFail "" 3).2 rfl
  exact ⟨⟨h1.1, h1.2.2.1, h1.2.2.2.2⟩, h2.1⟩

/-- C5: generate_asserts emits exactly one declare-fun line per registry
entry whose node is_var (in the registry iteration order, which is
unspecified for the Rust HashMap) and exactly one assert block per node
with no incoming edges that satisfies is_fn and is_bool; nodes with
incoming edges and non-boolean-function roots contribute nothing. -/
theorem claim_C5_generate_asserts_shape {F S : Type} [Inhabited F]
    (L : LogicOps F S) (st : SMTLib2 F S) :
    st.generate_asserts L =
      String.join
        ((st.var_map.filter (fun ent => L.is_var (st.gr.node ent.2.1))).map
            (fun ent =>
              "(declare-fun " ++ ent.1 ++ " () " ++ L.renderSort ent.2.2 ++ ")\n") ++
         ((List.range st.gr.nodes.length).filter
              (fun idx => (st.gr.incoming idx).isEmpty &&
                (L.is_fn (st.gr.node idx) && L.is_bool (st.gr.node idx)))).map
            (fun idx => "(assert " ++ st.expand_assertion L idx ++ ")\n")) :=
  generate_asserts_eq L st

/-- parseFold panics (returns none) as soon as some capture's name is
missing from the registry, whatever the other captures hold. -/
lemma parseFold_none_of_unregistered {S : Type} (vm : List (String × Nat × S)) :
    ∀ (l : List (String × String)) (acc : List (Nat × Nat)) (name valTok : String),
      (name, valTok) ∈ l → lookupAList vm name = none →
      parseFold vm l acc = none := by
  intro l
  induction l with
  | nil => intro acc name valTok h _; exact absurd h (List.not_mem_nil _)
  | cons hd tl ih =>
    intro acc name valTok hmem hlk
    rcases hd with ⟨n0, v0⟩
    cases hdv : decodeValue v0 with
    | none => simp [parseFold, hdv]
    | some d =>
      cases hlk0 : lookupAList vm n0 with
      | none => simp [parseFold, hdv, hlk0]
      | some ent =>
        simp only [parseFold, hdv, hlk0]
        rcases List.mem_cons.mp hmem with heq | hmem2
        · have hn : name = n0 := congrArg Prod.fst heq
          rw [hn] at hlk
          rw [hlk] at hlk0
          exact absurd hlk0 (by simp)
        · exact ih _ name valTok hmem2 hlk

/-- If parseFold completes with a mapping, every capture's name was
found in the registry. -/
lemma parseFold_some_registered {S : Type} (vm : List (String × Nat × S)) :
    ∀ (l : List (String × String)) (acc m : List (Nat × Nat)),
      parseFold vm l acc = some m →
      ∀ name valTok, (name, valTok) ∈ l →
        ∃ ent, lookupAList vm name = some ent := by
  intro l
  induction l with
  | nil => intro acc m _ name valTok h; exact absurd h (List.not_mem_nil _)
  | cons hd tl ih =>
    intro acc m hpf name valTok hmem
    rcases hd with ⟨n0, v0⟩
    cases hdv : decodeValue v0 with
    | none => rw [parseFold, hdv] at hpf; exact absurd hpf (by simp)
    | some d =>
      cases hlk0 : lookupAList vm n0 with
      | none => rw [parseFold, hdv, hlk0] at hpf; exact absurd hpf (by simp)
      | some ent =>
        rw [parseFold, hdv, hlk0] at hpf
        rcases List.mem_cons.mp hmem with heq | hmem2
        · have hn : name = n0 := congrArg Prod.fst heq
          exact ⟨ent, hn ▸ hlk0⟩
        · exact ih _ m hpf name valTok hmem2

/-- C9: when the model text contains a define-fun block whose captured
name is not in the variable registry, the model parser panics (none)
instead of returning a typed error or skipping the entry; a completed
parse implies every captured name was registered. -/
theorem claim_C9_unregistered_name_panics {F S : Type} (st : SMTLib2 F S)
    (output : String) :
    (∀ name valTok, (name, valTok) ∈ findCaptures output →
       lookupAList st.var_map name = none →
       (st.parse_solver_output output).2 = none) ∧
    (∀ m, (st.parse_solver_output output).2 = some m →
       ∀ name valTok, (name, valTok) ∈ findCaptures output →
         ∃ ent, lookupAList st.var_map name = some ent) := by
  constructor
  · intro name valTok hmem hlk
    exact parseFold_none_of_unregistered st.var_map _ [] name valTok hmem hlk
  · intro m hpf name valTok hmem
    exact parseFold_some_registered st.var_map _ [] m hpf name valTok hmem

/-- Model text for the C9 witness: one block whose name is unknown to
the registry. -/
def unregisteredOut : String := "\n (define-fun w () Int\n  5)"

/-- Witness for C9: the session's registry is empty, "w" is captured,
and the parse aborts with the modelled panic. -/
theorem claim_C9_unregistered_name_panics_witness :
    (("w", "5") ∈ findCaptures unregisteredOut ∧
     lookupAList wSt.var_map "w" = none) ∧
    (wSt.parse_solver_output unregisteredOut).2 = none :=
  ⟨⟨by decide, rfl⟩,
   (claim_C9_unregistered_name_panics wSt unregisteredOut).1 "w" "5" (by decide) rfl⟩

/-- Positional accumulation of digit values, big-endian, from a seed. -/
def valAcc (b a : Nat) (dvs : List Nat) : Nat :=
  dvs.foldl (fun x d => x * b + d) a

/-- The accumulator of valAcc never decreases. -/
lemma valAcc_ge (b : Nat) (hb : 1 ≤ b) :
    ∀ (dvs : List Nat) (a : Nat), a ≤ valAcc b a dvs := by
  intro dvs
  induction dvs with
  | nil => intro a; exact Nat.le_refl a
  | cons d tl ih =>
    intro a
    have h1 : a ≤ a * b + d := by
      calc a = a * 1 := (Nat.mul_one a).symm
        _ ≤ a * b := Nat.mul_le_mul_left a hb
        _ ≤ a * b + d := Nat.le_add_right _ _
    exact Nat.le_trans h1 (ih (a * b + d))

/-- Big-endian accumulation agrees with Mathlib's little-endian
positional value of the reversed digit list. -/
lemma valAcc_eq_ofDigits (b : Nat) :
    ∀ (dvs : List Nat) (a : Nat),
      valAcc b a dvs = a * b ^ dvs.length + Nat.ofDigits b dvs.reverse := by
  intro dvs
  induction dvs with
  | nil => intro a; simp [valAcc, Nat.ofDigits_nil]
  | cons d tl ih =>
    intro a
    show valAcc b (a * b + d) tl = _
    rw [ih]
    simp only [List.reverse_cons, Nat.ofDigits_append, Nat.ofDigits_cons,
      Nat.ofDigits_nil, List.length_reverse, List.length_cons, pow_succ]
    ring

/-- Destructuring a successful Option mapM over a cons cell. -/
lemma mapM_option_cons {α β : Type} (f : α → Option β) (c : α) (tl : List α)
    (r : List β) (h : (c :: tl).mapM f = some r) :
    ∃ d rest, f c = some d ∧ tl.mapM f = some rest ∧ r = d :: rest := by
  rw [List.mapM_cons] at h
  cases hfc : f c with
  | none => rw [hfc] at h; simp at h
  | some d =>
    rw [hfc] at h
    cases hmt : tl.mapM f with
    | none => rw [hmt] at h; simp at h
    | some rest =>
      rw [hmt] at h
      have h2 : some (d :: rest) = some r := h
      injection h2 with h3
      exact ⟨d, rest, rfl, rfl, h3.symm⟩

/-- The checked digit fold of u64::from_str_radix succeeds and computes
the positional value whenever every character is a valid digit and the
value fits in 64 bits. -/
lemma radix_foldl_eq (b : Nat) (hb : 1 ≤ b) :
    ∀ (cs : List Char) (dvs : List Nat) (a : Nat),
      cs.mapM (fun c => charToDigit c b) = some dvs →
      valAcc b a dvs < 18446744073709551616 →
      List.foldl (fun acc c =>
        match acc, charToDigit c b with
        | some x, some d =>
          if x * b + d < 18446744073709551616 then some (x * b + d) else none
        | _, _ => none) (some a) cs = some (valAcc b a dvs) := by
  intro cs
  induction cs with
  | nil =>
    intro dvs a hm _
    simp only [List.mapM_nil, pure, Option.some.injEq] at hm
    rw [← hm]
    rfl
  | cons c tl ih =>
    intro dvs a hm hlt
    rcases mapM_option_cons _ c tl dvs hm with ⟨d, rest, hfc, hmt, rfl⟩
    have hstep : a * b + d < 18446744073709551616 := by
      have h1 : a * b + d ≤ valAcc b (a * b + d) rest := valAcc_ge b hb rest _
      have h2 : valAcc b a (d :: rest) = valAcc b (a * b + d) rest := rfl
      rw [h2] at hlt
      omega
    rw [List.foldl_cons, hfc]
    show List.foldl _
      (if a * b + d < 18446744073709551616 then some (a * b + d) else none) tl = _
    rw [if_pos hstep]
    exact ih rest (a * b + d) hmt hlt

/-- charToDigit rejects the plus sign for every radix. -/
lemma charToDigit_plus (b : Nat) : charToDigit '+' b = none := rfl

/-- u64::from_str_radix on a string of valid digits computes the
positional value when it fits in 64 bits. -/
lemma from_str_radix_eq (b : Nat) (hb : 1 ≤ b) (cs : List Char) (dvs : List Nat)
    (hne : cs ≠ []) (hm : cs.mapM (fun c => charToDigit c b) = some dvs)
    (hlt : Nat.ofDigits b dvs.reverse < 18446744073709551616) :
    from_str_radix b (String.mk cs) = some (Nat.ofDigits b dvs.reverse) := by
  rcases cs with _ | ⟨c, rest⟩
  · exact absurd rfl hne
  · rcases mapM_option_cons _ c rest dvs hm with ⟨d, _, hfc, _, _⟩
    have hcp : c ≠ '+' := by
      intro hc
      rw [hc, charToDigit_plus] at hfc
      exact absurd hfc (by simp)
    show (let digits := if c = '+' then rest else c :: rest
          if digits.isEmpty then none else fromStrRadixCore b digits) = _
    simp only [if_neg hcp, List.isEmpty_cons, Bool.false_eq_true, if_false]
    have hv : valAcc b 0 dvs = Nat.ofDigits b dvs.reverse := by
      rw [valAcc_eq_ofDigits]
      simp
    show List.foldl _ (some 0) (c :: rest) = _
    rw [radix_foldl_eq b hb (c :: rest) dvs 0 hm (by rw [hv]; exact hlt), hv]

/-- decodeValue on a "#x"-prefixed token dispatches to hexadecimal. -/
lemma decodeValue_hex (ds : List Char) (dvs : List Nat) (hne : ds ≠ [])
    (hm : ds.mapM (fun c => charToDigit c 16) = some dvs)
    (hlt : Nat.ofDigits 16 dvs.reverse < 18446744073709551616) :
    decodeValue (String.mk ('#' :: 'x' :: ds)) = some (Nat.ofDigits 16 dvs.reverse) := by
  have hlen : 2 < (String.mk ('#' :: 'x' :: ds)).data.length := by
    show 2 < ds.length + 1 + 1
    have := List.length_pos.mpr hne
    omega
  unfold decodeValue
  rw [if_pos ⟨hlen, rfl⟩]
  exact from_str_radix_eq 16 (by norm_num) ds dvs hne hm hlt

/-- decodeValue on a "#b"-prefixed token dispatches to binary. -/
lemma decodeValue_bin (ds : List Char) (dvs : List Nat) (hne : ds ≠ [])
    (hm : ds.mapM (fun c => charToDigit c 2) = some dvs)
    (hlt : Nat.ofDigits 2 dvs.reverse < 18446744073709551616) :
    decodeValue (String.mk ('#' :: 'b' :: ds)) = some (Nat.ofDigits 2 dvs.reverse) := by
  have hlen : 2 < (String.mk ('#' :: 'b' :: ds)).data.length := by
    show 2 < ds.length + 1 + 1
    have := List.length_pos.mpr hne
    omega
  have hx : ¬((String.mk ('#' :: 'b' :: ds)).data.take 2 = ['#', 'x']) := by
    show ¬(['#', 'b'] = ['#', 'x'])
    decide
  unfold decodeValue
  rw [if_neg (fun h => hx h.2), if_pos ⟨hlen, rfl⟩]
  exact from_str_radix_eq 2 (by norm_num) ds dvs hne hm hlt

/-- decodeValue on a token of decimal digits dispatches to decimal. -/
lemma decodeValue_dec (ds : List Char) (dvs : List Nat) (hne : ds ≠ [])
    (hm : ds.mapM (fun c => charToDigit c 10) = some dvs)
    (hlt : Nat.ofDigits 10 dvs.reverse < 18446744073709551616) :
    decodeValue (String.mk ds) = some (Nat.ofDigits 10 dvs.reverse) := by
  rcases ds with _ | ⟨c, tl⟩
  · exact absurd rfl hne
  · rcases mapM_option_cons _ c tl dvs hm with ⟨d, _, hfc, _, _⟩
    have hch : c ≠ '#' := by
      intro hc
      have hplus : charToDigit '#' 10 = none := rfl
      rw [hc, hplus] at hfc
      simp at hfc
    have hgen : ∀ c2 : Char, ¬(2 < (String.mk (c :: tl)).data.length ∧
        (String.mk (c :: tl)).data.take 2 = ['#', c2]) := by
      rintro c2 ⟨_, ht⟩
      have h0 := congrArg List.head? ht
      simp only [List.take_succ_cons, List.head?] at h0
      exact hch (by injection h0)
    unfold decodeValue
    rw [if_neg (hgen 'x'), if_neg (hgen 'b')]
    exact from_str_radix_eq 10 (by norm_num) (c :: tl) dvs hne hm hlt

/-- The model response of the spec's parser test. -/
def modelTestText : String :=
  "(model\n  (define-fun x () Int\n    10)\n  (define-fun y () (_ BitVec 32)\n    #x0000000a)\n  (define-fun z () Bool\n    #b1)\n)\n"

/-- C7: each define-fun value token is decoded by its prefix, "#x" as
hexadecimal, "#b" as binary, anything else as decimal, into an unsigned
64-bit integer; on the spec's test response the tokens 10, #x0000000a
and #b1 decode to 10, 10 and 1, keyed by the registered handles of x, y
and z. -/
theorem claim_C7_model_value_decoding :
    (∀ (ds : List Char) (dvs : List Nat), ds ≠ [] →
       ds.mapM (fun c => charToDigit c 16) = some dvs →
       Nat.ofDigits 16 dvs.reverse < 18446744073709551616 →
       decodeValue (String.mk ('#' :: 'x' :: ds)) =
         some (Nat.ofDigits 16 dvs.reverse)) ∧
    (∀ (ds : List Char) (dvs : List Nat), ds ≠ [] →
       ds.mapM (fun c => charToDigit c 2) = some dvs →
       Nat.ofDigits 2 dvs.reverse < 18446744073709551616 →
       decodeValue (String.mk ('#' :: 'b' :: ds)) =
         some (Nat.ofDigits 2 dvs.reverse)) ∧
    (∀ (ds : List Char) (dvs : List Nat), ds ≠ [] →
       ds.mapM (fun c => charToDigit c 10) = some dvs →
       Nat.ofDigits 10 dvs.reverse < 18446744073709551616 →
       decodeValue (String.mk ds) = some (Nat.ofDigits 10 dvs.reverse)) ∧
    parseFold [("x", (0, TSort.tInt)), ("y", (1, TSort.tBV 32)), ("z", (2, TSort.tBool))]
      (findCaptures modelTestText) [] = some [(0, 10), (1, 10), (2, 1)] :=
  ⟨decodeValue_hex, decodeValue_bin, decodeValue_dec, by decide⟩

/-- Witness for C7 at the spec's hex token: "#x0000000a" decodes to 10. -/
theorem claim_C7_model_value_decoding_witness :
    ("0000000a".data ≠ [] ∧
     "0000000a".data.mapM (fun c => charToDigit c 16) =
       some [0, 0, 0, 0, 0, 0, 0, 10] ∧
     Nat.ofDigits 16 [0, 0, 0, 0, 0, 0, 0, 10].reverse < 18446744073709551616) ∧
    decodeValue (String.mk ('#' :: 'x' :: "0000000a".data)) =
      some (Nat.ofDigits 16 [0, 0, 0, 0, 0, 0, 0, 10].reverse) :=
  ⟨⟨by decide, by decide, by decide⟩,
   claim_C7_model_value_decoding.1 "0000000a".data [0, 0, 0, 0, 0, 0, 0, 10]
     (by decide) (by decide) (by decide)⟩

/-- Numeric value of a decimal digit character. -/
def chVal (c : Char) : Nat := c.toNat - 48

/-- Big-endian decimal value of a character list, from a seed. -/
def digitsVal (a : Nat) (cs : List Char) : Nat :=
  cs.foldl (fun x c => x * 10 + chVal c) a

/-- chVal inverts Nat.digitChar below 10. -/
lemma chVal_digitChar (n : Nat) (h : n < 10) : chVal (Nat.digitChar n) = n := by
  interval_cases n <;> decide

/-- Nat.toDigitsCore with enough fuel appends its digits in front of the
accumulator. -/
lemma toDigitsCore_append10 : ∀ (n fuel : Nat) (ds : List Char), n < fuel →
    Nat.toDigitsCore 10 fuel n ds = Nat.toDigitsCore 10 (n + 1) n [] ++ ds := by
  intro n
  induction n using Nat.strong_induction_on with
  | _ n ih =>
    intro fuel ds hf
    rcases fuel with _ | fuel
    · omega
    · by_cases h0 : n / 10 = 0
      · rw [Nat.toDigitsCore, if_pos h0]
        show _ = Nat.toDigitsCore 10 (n + 1) n [] ++ ds
        rw [Nat.toDigitsCore, if_pos h0]
        rfl
      · have hn0 : 0 < n := by
          rcases Nat.eq_zero_or_pos n with h | h
          · rw [h] at h0; simp at h0
          · exact h
        have hdiv : n / 10 < n := Nat.div_lt_self hn0 (by norm_num)
        have hfu : n / 10 < fuel := by omega
        have hlhs : Nat.toDigitsCore 10 (fuel + 1) n ds =
            Nat.toDigitsCore 10 (n / 10 + 1) (n / 10) []
              ++ (Nat.digitChar (n % 10) :: ds) := by
          rw [Nat.toDigitsCore, if_neg h0]
          exact ih (n / 10) hdiv fuel _ hfu
        have hrhs : Nat.toDigitsCore 10 (n + 1) n [] =
            Nat.toDigitsCore 10 (n / 10 + 1) (n / 10) []
              ++ [Nat.digitChar (n % 10)] := by
          rw [Nat.toDigitsCore, if_neg h0]
          exact ih (n / 10) hdiv n _ hdiv
        rw [hlhs, hrhs]
        simp

/-- Decimal digit accumulation inverts Nat.toDigits base 10. -/
lemma digitsVal_toDigits10 : ∀ (n a : Nat),
    digitsVal a (Nat.toDigits 10 n) =
      a * 10 ^ (Nat.toDigits 10 n).length + n := by
  intro n
  induction n using Nat.strong_induction_on with
  | _ n ih =>
    intro a
    by_cases h0 : n / 10 = 0
    · have hn : n < 10 := by
        have := (Nat.div_eq_zero_iff (by norm_num : 0 < 10)).mp h0
        exact this
      have hone : Nat.toDigits 10 n = [Nat.digitChar (n % 10)] := by
        show Nat.toDigitsCore 10 (n + 1) n [] = _
        rw [Nat.toDigitsCore, if_pos h0]
      rw [hone]
      show a * 10 + chVal (Nat.digitChar (n % 10)) = a * 10 ^ 1 + n
      rw [chVal_digitChar _ (Nat.mod_lt n (by norm_num)), Nat.mod_eq_of_lt hn]
      ring
    · have hn0 : 0 < n := by
        rcases Nat.eq_zero_or_pos n with h | h
        · rw [h] at h0; simp at h0
        · exact h
      have hdiv : n / 10 < n := Nat.div_lt_self hn0 (by norm_num)
      have hsplit : Nat.toDigits 10 n =
          Nat.toDigits 10 (n / 10) ++ [Nat.digitChar (n % 10)] := by
        show Nat.toDigitsCore 10 (n + 1) n [] = _
        rw [Nat.toDigitsCore, if_neg h0,
          toDigitsCore_append10 (n / 10) n _ hdiv]
        rfl
      rw [hsplit]
      unfold digitsVal
      rw [List.foldl_append]
      show digitsVal a (Nat.toDigits 10 (n / 10)) * 10
          + chVal (Nat.digitChar (n % 10)) = _
      rw [ih (n / 10) hdiv a, chVal_digitChar _ (Nat.mod_lt n (by norm_num))]
      have hmod : 10 * (n / 10) + n % 10 = n := Nat.div_add_mod n 10
      rw [List.length_append, List.length_cons, List.length_nil, pow_succ]
      ring_nf
      omega

/-- The decimal rendering Nat.repr is injective. -/
lemma natRepr_injective (m n : Nat) (h : Nat.repr m = Nat.repr n) : m = n := by
  have hd : Nat.toDigits 10 m = Nat.toDigits 10 n := by
    have h2 := congrArg String.data h
    exact h2
  have hm := digitsVal_toDigits10 m 0
  have hn := digitsVal_toDigits10 n 0
  rw [hd] at hm
  simp only [Nat.zero_mul, Nat.zero_add] at hm hn
  rw [hm] at hn
  exact hn

/-- The generated anonymous names X_i are pairwise distinct. -/
lemma nameX_injective (a b : Nat) (h : "X_" ++ Nat.repr a = "X_" ++ Nat.repr b) :
    a = b := by
  have hd := congrArg String.data h
  rw [String.data_append, String.data_append] at hd
  exact natRepr_injective a b (String.ext (List.append_cancel_left hd))

/-- Inserting a key absent from an association list appends it. -/
lemma updateAList_append {K V : Type} [DecidableEq K] :
    ∀ (m : List (K × V)) (k : K) (v : V), (∀ e ∈ m, e.1 ≠ k) →
      updateAList m k v = m ++ [(k, v)] := by
  intro m k v
  induction m with
  | nil => intro _; rfl
  | cons e tl ih =>
    intro hfr
    rcases e with ⟨k2, v2⟩
    have hne : k2 ≠ k := hfr (k2, v2) (List.mem_cons_self _ _)
    show (if k2 = k then (k, v) :: tl else (k2, v2) :: updateAList tl k v) = _
    rw [if_neg hne, ih (fun e he => hfr e (List.mem_cons_of_mem _ he))]
    rfl

/-- n anonymous new_var calls on a fresh session. -/
def iterNewVar {F S : Type} (L : LogicOps F S) (ty : S) : Nat → SMTLib2 F S
  | 0 => SMTLib2.new none
  | n + 1 => (SMTLib2.new_var L (iterNewVar L ty n) none ty).1

/-- C8: n anonymous new_var calls on a fresh session generate exactly
the names X_1, ..., X_n in order, with the counter starting at 1 and
increasing by one per call, and register each name in the name-to-handle
map and the handle-to-name map (handles are the node indices 0..n-1). -/
theorem claim_C8_anonymous_names {F S : Type} (L : LogicOps F S) (ty : S) (n : Nat) :
    (iterNewVar L ty n).var_map =
      (List.range n).map (fun i => ("X_" ++ Nat.repr (i + 1), (i, ty))) ∧
    (iterNewVar L ty n).idx_map =
      (List.range n).map (fun i => (i, "X_" ++ Nat.repr (i + 1))) ∧
    (iterNewVar L ty n).var_index = n ∧
    (iterNewVar L ty n).gr.nodes =
      (List.range n).map (fun i => L.free_var ("X_" ++ Nat.repr (i + 1)) ty) := by
  induction n with
  | zero => exact ⟨rfl, rfl, rfl, rfl⟩
  | succ n ih =>
    obtain ⟨hvm, him, hvi, hnd⟩ := ih
    have hlen : (iterNewVar L ty n).gr.nodes.length = n := by
      rw [hnd]; simp
    refine ⟨?_, ?_, ?_, ?_⟩
    · show updateAList (iterNewVar L ty n).var_map
        ("X_" ++ Nat.repr ((iterNewVar L ty n).var_index + 1))
        ((iterNewVar L ty n).gr.nodes.length, ty) = _
      rw [hvi, hlen, hvm]
      have hfresh : ∀ e ∈ (List.range n).map
          (fun i => ("X_" ++ Nat.repr (i + 1), (i, ty))),
          e.1 ≠ "X_" ++ Nat.repr (n + 1) := by
        intro e he hc
        rcases List.mem_map.mp he with ⟨i, hi, rfl⟩
        have := nameX_injective (i + 1) (n + 1) hc
        have hi2 := List.mem_range.mp hi
        omega
      rw [updateAList_append _ _ _ hfresh, List.range_succ, List.map_append]
      rfl
    · show updateAList (iterNewVar L ty n).idx_map
        (iterNewVar L ty n).gr.nodes.length
        ("X_" ++ Nat.repr ((iterNewVar L ty n).var_index + 1)) = _
      rw [hvi, hlen, him]
      have hfresh : ∀ e ∈ (List.range n).map
          (fun i => (i, "X_" ++ Nat.repr (i + 1))), e.1 ≠ n := by
        intro e he hc
        rcases List.mem_map.mp he with ⟨i, hi, rfl⟩
        have hi2 := List.mem_range.mp hi
        omega
      rw [updateAList_append _ _ _ hfresh, List.range_succ, List.map_append]
      rfl
    · show (iterNewVar L ty n).var_index + 1 = n + 1
      rw [hvi]
    · show (iterNewVar L ty n).gr.nodes ++
        [L.free_var ("X_" ++ Nat.repr ((iterNewVar L ty n).var_index + 1)) ty] = _
      rw [hvi, hnd, List.range_succ, List.map_append]
      rfl

/-- Strict version of the ordinal comparison. -/
def ordLT (x y : Nat × Nat) : Prop := x.2 < y.2

instance : IsAntisymm (Nat × Nat) ordLT :=
  ⟨fun _ _ h1 h2 => absurd (Nat.lt_trans h1 h2) (Nat.lt_irrefl _)⟩

instance : IsTotal (Nat × Nat) ordLE := ⟨fun a b => Nat.le_total a.2 b.2⟩

instance : IsTrans (Nat × Nat) ordLE := ⟨fun _ _ _ h1 h2 => Nat.le_trans h1 h2⟩

/-- A child pair of a node comes from an outgoing edge. -/
lemma mem_childPairs {F : Type} (g : Graph F) (ni : Nat) (c : Nat × Nat)
    (h : c ∈ g.childPairs ni) : ∃ e ∈ g.edges, e.1 = ni ∧ e.2.1 = c.1 := by
  unfold Graph.childPairs at h
  rw [List.mem_reverse] at h
  rcases List.mem_map.mp h with ⟨e, he, hc⟩
  have hf := List.mem_filter.mp he
  rcases e with ⟨s, t, ⟨i⟩⟩
  refine ⟨(s, t, EdgeData.EdgeOrder i), hf.1, by simpa using hf.2, ?_⟩
  rw [← hc]

/-- Under the downward-edge invariant, children of ni sit strictly below
ni. -/
lemma child_lt {F : Type} (g : Graph F)
    (hwf : ∀ e ∈ g.edges, e.2.1 < e.1) (ni : Nat) (c : Nat × Nat)
    (h : c ∈ List.insertionSort ordLE (g.childPairs ni)) : c.1 < ni := by
  rw [List.mem_insertionSort] at h
  rcases mem_childPairs g ni c h with ⟨e, he, hs, ht⟩
  have := hwf e he
  rw [hs, ht] at this
  exact this

/-- Pointwise congruence for foldl over a list. -/
lemma foldl_congr_mem {α β : Type} (g1 g2 : β → α → β) :
    ∀ (l : List α) (a : β), (∀ b c, c ∈ l → g1 b c = g2 b c) →
      l.foldl g1 a = l.foldl g2 a := by
  intro l
  induction l with
  | nil => intro a _; rfl
  | cons c tl ih =>
    intro a h
    simp only [List.foldl_cons]
    rw [h a c (List.mem_cons_self _ _)]
    exact ih _ (fun b d hd => h b d (List.mem_cons_of_mem _ hd))

/-- Appending mapped pieces one by one is the join of the map. -/
lemma foldl_append_map_join {α : Type} (f : α → String) :
    ∀ (l : List α) (a : String),
      l.foldl (fun acc c => acc ++ f c) a = a ++ String.join (l.map f) := by
  intro l
  induction l with
  | nil => intro a; show a = a ++ String.join []; simp [String.join]
  | cons c tl ih =>
    intro a
    show List.foldl (fun acc c => acc ++ f c) (a ++ f c) tl = _
    rw [ih, List.map_cons, join_cons, String.append_assoc]

/-- Outgoing child pairs of permuted edge lists are permutations. -/
lemma childPairs_perm {F : Type} (g g2 : Graph F)
    (hperm : g2.edges.Perm g.edges) (ni : Nat) :
    (g2.childPairs ni).Perm (g.childPairs ni) := by
  unfold Graph.childPairs
  exact (List.reverse_perm _).trans
    (((hperm.filter _).map _).trans (List.reverse_perm _).symm)

/-- Sorting by ordinal is insensitive to the initial arrangement when
the ordinals are distinct. -/
lemma insertionSort_eq_of_perm (l1 l2 : List (Nat × Nat)) (hp : l1.Perm l2)
    (hnd : (l2.map Prod.snd).Nodup) :
    List.insertionSort ordLE l1 = List.insertionSort ordLE l2 := by
  have hsorted : ∀ (l : List (Nat × Nat)), (l.map Prod.snd).Nodup →
      List.Sorted ordLT (List.insertionSort ordLE l) := by
    intro l hl
    have hs := List.sorted_insertionSort ordLE l
    have hnd2 : ((List.insertionSort ordLE l).map Prod.snd).Nodup :=
      (((List.perm_insertionSort ordLE l).map Prod.snd).symm).nodup hl
    have hpw : List.Pairwise (fun a b : Nat × Nat => a.2 ≠ b.2)
        (List.insertionSort ordLE l) := List.pairwise_map.mp hnd2
    exact (hs.and hpw).imp (fun h => Nat.lt_of_le_of_ne h.1 h.2)
  have hnd1 : (l1.map Prod.snd).Nodup := ((hp.map Prod.snd).symm).nodup hnd
  exact List.eq_of_perm_of_sorted
    ((List.perm_insertionSort ordLE l1).trans
      (hp.trans (List.perm_insertionSort ordLE l2).symm))
    (hsorted l1 hnd1) (hsorted l2 hnd)

/-- On graphs whose edges point strictly downward, expandA does not
depend on the fuel as long as it exceeds the node index. -/
lemma expandA_fuel_congr {F S : Type} [Inhabited F] (L : LogicOps F S)
    (g : Graph F) (hwf : ∀ e ∈ g.edges, e.2.1 < e.1) :
    ∀ (ni f1 f2 : Nat), ni < f1 → ni < f2 →
      expandA L g f1 ni = expandA L g f2 ni := by
  intro ni
  induction ni using Nat.strong_induction_on with
  | _ ni ih =>
    intro f1 f2 h1 h2
    rcases f1 with _ | f1
    · omega
    rcases f2 with _ | f2
    · omega
    simp only [expandA]
    have hfold : List.foldl
        (fun acc c => acc ++ " " ++ expandA L g f1 c.1)
        (if L.is_fn (g.node ni) then "(" ++ L.render (g.node ni)
         else L.render (g.node ni))
        (List.insertionSort ordLE (g.childPairs ni)) =
      List.foldl
        (fun acc c => acc ++ " " ++ expandA L g f2 c.1)
        (if L.is_fn (g.node ni) then "(" ++ L.render (g.node ni)
         else L.render (g.node ni))
        (List.insertionSort ordLE (g.childPairs ni)) := by
      apply foldl_congr_mem
      intro b c hc
      have hlt := child_lt g hwf ni c hc
      rw [ih c.1 hlt f1 f2 (by omega) (by omega)]
    rw [hfold]

/-- expandA depends only on the multiset of edges (and the nodes): the
order in which operands were attached is irrelevant when each node's
edge ordinals are distinct. -/
lemma expandA_perm_congr {F S : Type} [Inhabited F] (L : LogicOps F S)
    (g g2 : Graph F)
    (hnodes : g2.nodes = g.nodes)
    (hperm : g2.edges.Perm g.edges)
    (hwf : ∀ e ∈ g.edges, e.2.1 < e.1)
    (hnd : ∀ s ∈ g.edges.map (fun e => e.1),
      ((g.childPairs s).map Prod.snd).Nodup) :
    ∀ (ni fuel : Nat), expandA L g2 fuel ni = expandA L g fuel ni := by
  intro ni
  induction ni using Nat.strong_induction_on with
  | _ ni ih =>
    intro fuel
    rcases fuel with _ | fuel
    · show L.render (g2.node ni) = L.render (g.node ni)
      rw [Graph.node, Graph.node, hnodes]
    have hnode : g2.node ni = g.node ni := by
      rw [Graph.node, Graph.node, hnodes]
    have hsorted : List.insertionSort ordLE (g2.childPairs ni) =
        List.insertionSort ordLE (g.childPairs ni) := by
      by_cases hni : g.childPairs ni = []
      · have h2 : g2.childPairs ni = [] :=
          ((childPairs_perm g g2 hperm ni).trans (hni ▸ List.Perm.refl _)).eq_nil
        rw [hni, h2]
      · rcases List.exists_mem_of_ne_nil _ hni with ⟨c, hc⟩
        rcases mem_childPairs g ni c hc with ⟨e, he, hs, _⟩
        have hsrc : ni ∈ g.edges.map (fun e => e.1) :=
          List.mem_map.mpr ⟨e, he, hs⟩
        exact insertionSort_eq_of_perm _ _ (childPairs_perm g g2 hperm ni)
          (hnd ni hsrc)
    simp only [expandA]
    rw [hnode, hsorted]
    have hfold : List.foldl (fun acc c => acc ++ " " ++ expandA L g2 fuel c.1)
        (if L.is_fn (g.node ni) then "(" ++ L.render (g.node ni)
         else L.render (g.node ni))
        (List.insertionSort ordLE (g.childPairs ni)) =
      List.foldl (fun acc c => acc ++ " " ++ expandA L g fuel c.1)
        (if L.is_fn (g.node ni) then "(" ++ L.render (g.node ni)
         else L.render (g.node ni))
        (List.insertionSort ordLE (g.childPairs ni)) := by
      apply foldl_congr_mem
      intro b c hc
      rw [ih c.1 (child_lt g hwf ni c hc) fuel]
    rw [hfold]

/-- C1: expand_assertion collects a node's outgoing edges, sorts them by
ascending ordinal, expands each target recursively in that order, and
yields "(<rendering> <child1> ... <childn>)" for function nodes and the
bare rendering for leaves, independently of the order in which the
operand edges were attached (graphs reachable through the API have
downward edges, per-node distinct ordinals, and only function nodes
carry operands). -/
theorem claim_C1_expand_assertion_shape {F S : Type} [Inhabited F]
    (L : LogicOps F S) (st st2 : SMTLib2 F S) (ni : Nat)
    (hwf : ∀ e ∈ st.gr.edges, e.2.1 < e.1)
    (hnd : ∀ s ∈ st.gr.edges.map (fun e => e.1),
      ((st.gr.childPairs s).map Prod.snd).Nodup)
    (hfn : ∀ s ∈ st.gr.edges.map (fun e => e.1),
      L.is_fn (st.gr.node s) = true)
    (hnodes : st2.gr.nodes = st.gr.nodes)
    (hperm : st2.gr.edges.Perm st.gr.edges) :
    (st.expand_assertion L ni =
       if L.is_fn (st.gr.node ni) then
         "(" ++ L.render (st.gr.node ni) ++
           String.join ((List.insertionSort ordLE (st.gr.childPairs ni)).map
             (fun c => " " ++ st.expand_assertion L c.1)) ++ ")"
       else L.render (st.gr.node ni)) ∧
    List.Sorted ordLE (List.insertionSort ordLE (st.gr.childPairs ni)) ∧
    st2.expand_assertion L ni = st.expand_assertion L ni := by
  refine ⟨?_, List.sorted_insertionSort ordLE _, ?_⟩
  · show expandA L st.gr (ni + 1) ni = _
    simp only [expandA]
    by_cases hf : L.is_fn (st.gr.node ni)
    · rw [if_pos hf, if_pos hf, if_pos hf]
      have hassoc : (fun (acc : String) (c : Nat × Nat) =>
          acc ++ " " ++ expandA L st.gr ni c.1) =
          (fun acc c => acc ++ (" " ++ expandA L st.gr ni c.1)) := by
        funext acc c
        rw [String.append_assoc]
      rw [hassoc, foldl_append_map_join]
      have hmap : (List.insertionSort ordLE (st.gr.childPairs ni)).map
          (fun c => " " ++ expandA L st.gr ni c.1) =
          (List.insertionSort ordLE (st.gr.childPairs ni)).map
          (fun c => " " ++ st.expand_assertion L c.1) := by
        apply List.map_congr_left
        intro c hc
        have hlt := child_lt st.gr hwf ni c hc
        rw [expandA_fuel_congr L st.gr hwf c.1 ni (c.1 + 1) hlt (Nat.lt_succ_self _)]
        rfl
      rw [hmap]
    · rw [if_neg hf, if_neg hf, if_neg hf]
      have hempty : st.gr.childPairs ni = [] := by
        by_contra hne
        rcases List.exists_mem_of_ne_nil _ hne with ⟨c, hc⟩
        rcases mem_childPairs _ _ _ hc with ⟨e, he, hs, _⟩
        exact hf (hfn ni (List.mem_map.mpr ⟨e, he, hs⟩))
      rw [hempty]
      rfl
  · exact expandA_perm_congr L st.gr st2.gr hnodes hperm hwf hnd ni (ni + 1)

/-- A three-level assertion tree (= (bvadd x y) 7) with operands
attached in ascending ordinal order. -/
def wg1 : SMTLib2 TFn TSort :=
  { logic := none
    gr := { nodes := [TFn.fvar "x" TSort.tInt, TFn.fvar "y" TSort.tInt,
              TFn.fconst 7, TFn.ffn "bvadd" false, TFn.ffn "=" true]
            edges := [(3, 0, EdgeData.EdgeOrder 0), (3, 1, EdgeData.EdgeOrder 1),
              (4, 3, EdgeData.EdgeOrder 0), (4, 2, EdgeData.EdgeOrder 1)] }
    var_index := 2
    var_map := [("x", (0, TSort.tInt)), ("y", (1, TSort.tInt))]
    idx_map := [(0, "x"), (1, "y")] }

/-- The same tree with the operand edges attached in the reverse
order. -/
def wg2 : SMTLib2 TFn TSort :=
  { wg1 with
    gr := { nodes := wg1.gr.nodes
            edges := [(4, 2, EdgeData.EdgeOrder 1), (4, 3, EdgeData.EdgeOrder 0),
              (3, 1, EdgeData.EdgeOrder 1), (3, 0, EdgeData.EdgeOrder 0)] } }

/-- Witness for C1 on the three-level tree: the hypotheses hold and the
conclusion follows by the theorem; additionally the rendered output is
the fully parenthesized prefix form. -/
theorem claim_C1_expand_assertion_shape_witness :
    ((∀ e ∈ wg1.gr.edges, e.2.1 < e.1) ∧
     (∀ s ∈ wg1.gr.edges.map (fun e => e.1),
       ((wg1.gr.childPairs s).map Prod.snd).Nodup) ∧
     (∀ s ∈ wg1.gr.edges.map (fun e => e.1),
       toyL.is_fn (wg1.gr.node s) = true) ∧
     wg2.gr.nodes = wg1.gr.nodes ∧
     wg2.gr.edges.Perm wg1.gr.edges) ∧
    wg2.expand_assertion toyL 4 = wg1.expand_assertion toyL 4 ∧
    wg1.expand_assertion toyL 4 = "(= (bvadd x y) 7)" :=
  ⟨⟨by decide, by decide, by decide, by decide, by decide⟩,
   (claim_C1_expand_assertion_shape toyL wg1 wg2 4 (by decide) (by decide)
     (by decide) (by decide) (by decide)).2.2,
   by decide⟩
